import Mathlib

/-!
# Verification of the Stromschlag icon-pack core

Shallow embedding of the Stromschlag repository's core modules
(`core/utils.py`, `core/models.py`, `core/project_io.py`, `core/exporters.py`,
`core/theme_loader.py`, and the import helper of `gui/main_window.py`),
together with theorems settling the frozen specification claims.

Modelling conventions:
* Python `pathlib.Path` values are modelled as plain strings joined with `/`
  (paths are assumed normalised, which `Path`'s constructor guarantees).
* The filesystem is passed explicitly: existence/type predicates and
  directory listings are parameters of the embedded functions.
* YAML documents are modelled structurally (`YVal`); the YAML codec is, per
  the specification, an opaque structured-document codec, so saving and
  loading compose as functions on `YVal`.
* Python exceptions are modelled with `Except`; filesystem mutation is
  modelled as an explicit trace of operations (`FsOp`).
-/

namespace Stromschlag

/-! ## Path and string helpers (shallow model of `pathlib` operations) -/

/-- Split a character list on a separator character (used to model
`Path.parts` and component access; paths are assumed normalised). -/
def splitSeps (sep : Char) : List Char → List (List Char)
  | [] => [[]]
  | c :: rest =>
    let r := splitSeps sep rest
    if c = sep then [] :: r
    else
      match r with
      | [] => [[c]]
      | h :: t => (c :: h) :: t

/-- `Path.parts` for a (normalised, relative) path string. -/
def pathParts (p : String) : List String :=
  ((splitSeps ('/') p.toList).filter (fun l => l ≠ [])).map (fun l => String.mk l)

/-- The final component of a path (`Path.name`). -/
def lastComponent (p : String) : String :=
  (pathParts p).getLast?.getD ("")

/-- Parent path (`Path.parent`): all but the final component, `"."` when
there is at most one component. -/
def pathParent (p : String) : String :=
  let parts := pathParts p
  if parts.length ≤ 1 then "." else String.intercalate ("/") parts.dropLast

/-- Index of the last occurrence of a character in a list, if any. -/
def lastIdxOf (c : Char) : List Char → Option Nat
  | [] => none
  | x :: rest =>
    match lastIdxOf c rest with
    | some i => some (i + 1)
    | none => if x = c then some 0 else none

/-- `Path.suffix`: the dot-extension of the final component; empty when the
final component has no interior dot. -/
def pathSuffix (p : String) : String :=
  let base := (lastComponent p).toList
  match lastIdxOf ('.') base with
  | some i => if 0 < i ∧ i < base.length - 1 then String.mk (base.drop i) else ""
  | none => ""

/-- `Path.stem`: the final component with `pathSuffix` removed. -/
def pathStem (p : String) : String :=
  let base := (lastComponent p).toList
  match lastIdxOf ('.') base with
  | some i => if 0 < i ∧ i < base.length - 1 then String.mk (base.take i) else String.mk base
  | none => String.mk base

/-- Lowercase a string (Python `str.lower`, modelled on ASCII letters,
which is all the repository's inputs use). -/
def strLower (s : String) : String :=
  String.mk (s.data.map Char.toLower)

/-- Python `str.strip()`: drop surrounding whitespace. -/
def pyStrip (s : String) : String :=
  String.mk (((s.data.dropWhile Char.isWhitespace).reverse.dropWhile Char.isWhitespace).reverse)

/-- Strict lexicographic comparison of character lists by code point
(Python string `<`). -/
def charListLt : List Char → List Char → Bool
  | [], [] => false
  | [], _ :: _ => true
  | _ :: _, [] => false
  | a :: as, b :: bs =>
    if a.toNat < b.toNat then true
    else if b.toNat < a.toNat then false
    else charListLt as bs

/-- Non-strict lexicographic comparison of character lists by code point. -/
def charListLe : List Char → List Char → Bool
  | [], _ => true
  | _ :: _, [] => false
  | a :: as, b :: bs =>
    if a.toNat < b.toNat then true
    else if b.toNat < a.toNat then false
    else charListLe as bs

/-- Python string `<=` (lexicographic by code point). -/
def strLe (a b : String) : Bool := charListLe a.data b.data

/-- `pathlib` path ordering: lexicographic on the component tuple (used by
`sorted(...)` over paths). -/
def pathPartsLe : List String → List String → Bool
  | [], _ => true
  | _ :: _, [] => false
  | a :: as, b :: bs =>
    if a = b then pathPartsLe as bs else charListLt a.data b.data

/-- `sorted` comparison on paths. -/
def pathLe (a b : String) : Bool := pathPartsLe (pathParts a) (pathParts b)

/-- Characters kept verbatim by `slugify` (`[a-z0-9]` after lowercasing). -/
def isSlugChar (c : Char) : Bool :=
  (('a') ≤ c ∧ c ≤ ('z')) ∨ (('0') ≤ c ∧ c ≤ ('9'))

/-- Replace each maximal run of non-slug characters with a single hyphen
(the `re.sub(r"[^a-z0-9]+", "-", value)` step of `utils.slugify`). -/
def slugCollapse : Bool → List Char → List Char
  | _, [] => []
  | prevDash, c :: rest =>
    if isSlugChar c then c :: slugCollapse false rest
    else if prevDash then slugCollapse true rest
    else ('-') :: slugCollapse true rest

/-- Strip leading and trailing hyphens (`value.strip("-")`). -/
def stripDashes (l : List Char) : List Char :=
  ((l.dropWhile (fun c => c = ('-'))).reverse.dropWhile (fun c => c = ('-'))).reverse

/-- `utils.slugify`: lowercase, collapse non-alphanumeric runs to hyphens,
trim hyphens, fall back to `"icon-pack"` when empty. -/
def slugify (value : String) : String :=
  let v := strLower (pyStrip value)
  let collapsed := stripDashes (slugCollapse false v.toList)
  if collapsed = [] then "icon-pack" else String.mk collapsed

/-- `utils.icon_filename`: canonical output filename for an icon name. -/
def icon_filename (value : String) : String :=
  slugify value ++ ".png"

/-! ## Structured documents (the opaque YAML codec's value space) -/

/-- A YAML-like structured value, as produced by `yaml.safe_load` /
consumed by `yaml.safe_dump`.  The codec is treated as the identity on
this value space (an opaque structured-document codec per the spec). -/
inductive YVal where
  | str (s : String)
  | int (n : Int)
  | list (xs : List YVal)
  | dict (kvs : List (String × YVal))
  | null
  deriving Repr

/-- `data.get(key)` on a structured document: `none` when the document is
not a mapping or lacks the key. -/
def yget (d : YVal) (key : String) : Option YVal :=
  match d with
  | .dict kvs => (kvs.find? (fun kv => kv.1 = key)).map Prod.snd
  | _ => none

/-- Read a string value, with a default (models `data.get(k, default)`
where the stored value is a string). -/
def ygetStr (d : YVal) (key : String) (dflt : String) : String :=
  match yget d key with
  | some (.str s) => s
  | _ => dflt

/-- Read a list value, with a default. -/
def ygetList (d : YVal) (key : String) (dflt : List YVal) : List YVal :=
  match yget d key with
  | some (.list xs) => xs
  | _ => dflt

/-! ## Data model (`core/models.py`, fields per the full repository model
used by `core/project_io.py` and the tests) -/

/-- Modelled from the spec: the package version constant `__version__`
(`stromschlag/__init__.py` is not under the provided sources); its concrete
value is immaterial to every claim. -/
def STROMSCHLAG_VERSION : String := "0.1.0"

/-- `models.IconDefinition`.  `source_path` and `category` are optional;
glyph/colour fields exist on the full model consumed by `project_io` and
`theme_loader` (the copy under `core/models.py` is a slimmed variant that
omits them, but its callers and tests require them). -/
structure IconDefinition where
  name : String
  glyph : Option String := none
  background : String := "#1d3557"
  foreground : String := "#f1faee"
  source_path : Option String := none
  category : Option String := none
  deriving Repr, DecidableEq

/-- `IconDefinition.has_source_asset`: the source path is set and exists on
disk (`ex` is the filesystem's existence predicate). -/
def hasSourceAsset (ex : String → Bool) (i : IconDefinition) : Bool :=
  match i.source_path with
  | some p => ex p
  | none => false

/-- `models.PackSettings`. -/
structure PackSettings where
  name : String
  author : String
  version : String := STROMSCHLAG_VERSION
  description : String := "Custom icon theme generated with Stromschlag"
  inherits : String := "breeze"
  base_sizes : List Int := [16, 24, 32, 48, 64, 128]
  output_dir : String := "build"
  targets : List String := ["gnome", "kde"]
  deriving Repr, DecidableEq

/-- `PackSettings.theme_slug`. -/
def themeSlug (s : PackSettings) : String := slugify s.name

/-- `PackSettings.theme_comment`: the description, falling back (Python
falsy-`or`) to a crafted-by line when the description is empty. -/
def themeComment (s : PackSettings) : String :=
  if s.description = "" then "Icon theme crafted by " ++ s.author else s.description

/-! ## Project file round-trip (`core/project_io.py`)

`save_project` is modelled as producing the structured document that
`yaml.safe_dump` would serialise; `load_project` consumes a structured
document (the codec round-trips structured values, per the spec's
opaque-codec treatment). -/

/-- Coerce a document value to an integer (`int(size)` on a loaded size;
only integer values occur on the save path). -/
def yint : YVal → Int
  | .int n => n
  | _ => 0

/-- Coerce a document value to a string (`str(target)` on a loaded target;
only string values occur on the save path). -/
def ystr : YVal → String
  | .str s => s
  | _ => ""

/-- `Path.expanduser`: expand a leading `~` to the user's home directory.
(The `~otheruser` form, which consults the password database, is left
unchanged; no claim exercises it.) -/
def expanduser (home : String) (p : String) : String :=
  if p = "~" then home
  else
    match p.data with
    | ('~') :: ('/') :: rest => home ++ String.mk (('/') :: rest)
    | _ => p

/-- The document entry `save_project` emits for one icon: glyph/colour
fields always, `category` only when truthy (Python: non-`None`, non-empty),
`source_path` only when set. -/
def save_icon_entry (i : IconDefinition) : YVal :=
  .dict
    ([(("name"), .str i.name),
      (("glyph"), match i.glyph with | some g => .str g | none => .null),
      (("background"), .str i.background),
      (("foreground"), .str i.foreground)]
     ++ (match i.category with
         | some c => if c = "" then [] else [(("category"), YVal.str c)]
         | none => [])
     ++ (match i.source_path with
         | some p => [(("source_path"), YVal.str p)]
         | none => []))

/-- `project_io.save_project`: the structured document written to disk. -/
def save_project (s : PackSettings) (icons : List IconDefinition) : YVal :=
  .dict
    [(("name"), .str s.name),
     (("author"), .str s.author),
     (("description"), .str s.description),
     (("inherits"), .str s.inherits),
     (("base_sizes"), .list (s.base_sizes.map .int)),
     (("output_dir"), .str s.output_dir),
     (("targets"), .list (s.targets.map .str)),
     (("icons"), .list (icons.map save_icon_entry))]

/-- One icon payload of `load_project` (`index` is the 1-based position,
used for the fallback display name). -/
def load_icon (home : String) (index : Nat) (p : YVal) : IconDefinition :=
  let name := ygetStr p ("name") ("Icon " ++ toString index)
  let glyphSource :=
    match yget p ("glyph") with
    | some (.str g) => if g = "" then (if name = "" then "?" else name) else g
    | _ => if name = "" then "?" else name
  let glyph := String.mk (glyphSource.toList.take 1)
  let sourcePath :=
    match yget p ("source_path") with
    | some (.str sp) => if sp = "" then none else some (expanduser home sp)
    | _ => none
  { name := name
    glyph := some glyph
    background := ygetStr p ("background") ("#1d3557")
    foreground := ygetStr p ("foreground") ("#f1faee")
    source_path := sourcePath
    category := match yget p ("category") with
                | some (.str c) => some c
                | _ => none }

/-- The icon list of `load_project` (`enumerate(..., start=1)`). -/
def load_icons (home : String) : Nat → List YVal → List IconDefinition
  | _, [] => []
  | idx, p :: rest => load_icon home idx p :: load_icons home (idx + 1) rest

/-- `project_io.load_project` applied to a structured document. -/
def load_project (home : String) (d : YVal) : PackSettings × List IconDefinition :=
  let settings : PackSettings :=
    { name := ygetStr d ("name") ("Untitled Icon Pack")
      author := ygetStr d ("author") ("Unknown")
      description := ygetStr d ("description") ("")
      inherits := ygetStr d ("inherits") ("breeze")
      base_sizes :=
        (ygetList d ("base_sizes") ([16, 24, 32, 48, 64, 128].map .int)).map yint
      output_dir := ygetStr d ("output_dir") ("build")
      targets := (ygetList d ("targets") ([YVal.str ("gnome"), YVal.str ("kde")])).map ystr }
  (settings, load_icons home 1 (ygetList d ("icons") []))

/-! ## Pack assembly (`core/exporters.py`)

Filesystem mutation is modelled as an explicit trace of operations, in the
order the code performs them.  Descriptor writes carry the structured
document (the YAML codec being opaque). -/

/-- One filesystem mutation performed during export. -/
inductive FsOp where
  | mkdir (path : String)
  | write (path : String) (content : String)
  | writeDoc (path : String) (doc : YVal)
  | copy (src : String) (dest : String)
  deriving Repr

/-- Is the operation a `copy2` file copy? -/
def FsOp.isCopy : FsOp → Bool
  | .copy _ _ => true
  | _ => false

/-- Python `dict` assignment `d[k] = v`: replace in place, or append when
the key is new (insertion order preserved, as `dict` guarantees). -/
def alUpdate {κ β : Type} [DecidableEq κ] : List (κ × β) → κ → β → List (κ × β)
  | [], k, v => [(k, v)]
  | (k', v') :: rest, k, v =>
    if k' = k then (k, v) :: rest else (k', v') :: alUpdate rest k v

/-- `d.get(k)` on the association-list model of a `dict`. -/
def alLookup {κ β : Type} [DecidableEq κ] (k : κ) (d : List (κ × β)) : Option β :=
  (d.find? (fun kv => kv.1 = k)).map Prod.snd

/-- `exporters._ThemeTarget`. -/
structure ThemeTarget where
  theme_root : String
  size_dirs : List (Int × String)
  scalable_dir : String
  deriving Repr

/-- The desired desktop list of `_prepare_theme_targets`: configured
targets restricted to `{gnome, kde}`, falling back to both when empty. -/
def resolvedTargets (s : PackSettings) : List String :=
  if s.targets.filter (fun t => t = "gnome" ∨ t = "kde") = [] then
    ["gnome", "kde"]
  else s.targets.filter (fun t => t = "gnome" ∨ t = "kde")

/-- Relative size-bucket directory `f"{size}x{size}/apps"`. -/
def sizeDirRel (size : Int) : String :=
  toString size ++ "x" ++ toString size ++ "/apps"

/-- The relative directories created per target, in creation order. -/
def directoriesFor (s : PackSettings) : List String :=
  s.base_sizes.map sizeDirRel ++ ["scalable/apps"]

/-- One `[directory]` section of `index.theme` (`_write_index_theme` loop
body): `directory.split("/", 1)[0]` and `split("x")[0]` are embedded as
`takeWhile`, which agrees with Python's `split(...)[0]`. -/
def indexThemeSection (directory : String) : String :=
  let sizePart := String.mk (directory.data.takeWhile (fun c => c ≠ ('/')))
  if ('x') ∈ sizePart.data then
    let sizeValue := String.mk (sizePart.data.takeWhile (fun c => c ≠ ('x')))
    "[" ++ directory ++ "]\nSize=" ++ sizeValue ++ "\nType=Fixed\n\n"
  else
    "[" ++ directory ++ "]\nSize=128\nType=Scalable\n\n"

/-- The full text written by `_write_index_theme`. -/
def indexThemeContent (s : PackSettings) (directories : List String)
    (comment : String) : String :=
  "[Icon Theme]\nName=" ++ s.name ++ "\nComment=" ++ comment
    ++ "\nInherits=" ++ s.inherits
    ++ "\nDirectories=" ++ String.intercalate (",") directories ++ "\n\n"
    ++ String.join (directories.map indexThemeSection)

/-- The per-desktop body of `_prepare_theme_targets`: directory creations,
the `index.theme` write, and the resulting `_ThemeTarget`. -/
def prepareTarget (root : String) (s : PackSettings) (comment : String)
    (desktop : String) : List FsOp × ThemeTarget :=
  let theme_root := root ++ "/" ++ desktop ++ "/" ++ s.name
  let sizeOps := s.base_sizes.map
    (fun size => FsOp.mkdir (theme_root ++ "/" ++ sizeDirRel size))
  let size_dirs := s.base_sizes.foldl
    (fun d size => alUpdate d size (theme_root ++ "/" ++ sizeDirRel size)) []
  let scalable := theme_root ++ "/scalable/apps"
  ([FsOp.mkdir theme_root] ++ sizeOps
     ++ [FsOp.mkdir scalable,
         FsOp.write (theme_root ++ "/index.theme")
           (indexThemeContent s (directoriesFor s) comment)],
   ⟨theme_root, size_dirs, scalable⟩)

/-- `exporters._prepare_theme_targets`. -/
def prepare_theme_targets (root : String) (s : PackSettings) :
    List FsOp × List ThemeTarget :=
  let comment := themeComment s
  let desired := resolvedTargets s
  (desired.flatMap (fun d => (prepareTarget root s comment d).1),
   desired.map (fun d => (prepareTarget root s comment d).2))

/-- Is the (lower-cased) extension a vector format (`{".svg", ".svgz"}`)? -/
def isVectorSuffix (suffix : String) : Bool :=
  suffix = ".svg" ∨ suffix = ".svgz"

/-- `exporters._copy_source_asset`. -/
def copy_source_asset (source : Option String) (filename : String)
    (targets : List ThemeTarget) : List FsOp :=
  match source with
  | none => []
  | some src =>
    let suffix := strLower (pathSuffix src)
    targets.flatMap (fun t =>
      if isVectorSuffix suffix then
        [FsOp.copy src (t.scalable_dir ++ "/" ++ filename)]
      else
        t.size_dirs.map (fun kv => FsOp.copy src (kv.2 ++ "/" ++ filename))
          ++ [FsOp.copy src (t.scalable_dir ++ "/" ++ filename)])

/-- The per-icon body of the export loop: icons without a resolvable
source asset are skipped (`continue`). -/
def iconExportOps (ex : String → Bool) (targets : List ThemeTarget)
    (i : IconDefinition) : List FsOp :=
  if hasSourceAsset ex i then
    copy_source_asset i.source_path (icon_filename i.name) targets
  else []

/-- Modelled from the spec: the `save_project` variant the exporter calls
(accepting `include_categories`) is not among the provided sources (the
copy under `core/project_io.py` predates that parameter).  Per §4.3 step 5
and §6 one icon entry of the descriptor carries the name, the category
(when requested and truthy), and the source path when set — no glyph or
colour fields. -/
def descriptorIconEntry (include_categories : Bool) (i : IconDefinition) :
    YVal :=
  .dict
    ([(("name"), YVal.str i.name)]
     ++ (match i.category with
         | some c =>
           if include_categories ∧ c ≠ "" then [(("category"), YVal.str c)]
           else []
         | none => [])
     ++ (match i.source_path with
         | some p => [(("source_path"), YVal.str p)]
         | none => []))

/-- Modelled from the spec (continued): the descriptor document — the
settings' seven keys plus the `icons` entry list. -/
def save_project_descriptor (s : PackSettings) (icons : List IconDefinition)
    (include_categories : Bool) : YVal :=
  .dict
    [(("name"), .str s.name),
     (("author"), .str s.author),
     (("description"), .str s.description),
     (("inherits"), .str s.inherits),
     (("base_sizes"), .list (s.base_sizes.map .int)),
     (("output_dir"), .str s.output_dir),
     (("targets"), .list (s.targets.map .str)),
     (("icons"), .list (icons.map (descriptorIconEntry include_categories)))]

/-- `exporters._write_project_descriptors`: the pack-root descriptor holds
a snapshot of the original icons; each per-target descriptor rewrites
`source_path` to the copied file in that target's `scalable/apps`
directory (icons without a copied asset keep no source path).  Each
`save_project` call first ensures the parent directory exists. -/
def write_project_descriptors (pack_root : String) (targets : List ThemeTarget)
    (s : PackSettings) (icons : List IconDefinition) (ex : String → Bool) :
    List FsOp :=
  let snapshot := icons.map (fun i =>
    ({ name := i.name, source_path := i.source_path, category := i.category }
      : IconDefinition))
  [FsOp.mkdir pack_root,
   FsOp.writeDoc (pack_root ++ "/stromschlag.yaml")
     (save_project_descriptor s snapshot false)]
  ++ targets.flatMap (fun t =>
      let themed := icons.map (fun i =>
        ({ name := i.name,
           source_path :=
             if hasSourceAsset ex i then
               some (t.scalable_dir ++ "/" ++ icon_filename i.name)
             else none,
           category := i.category } : IconDefinition))
      [FsOp.mkdir t.theme_root,
       FsOp.writeDoc (t.theme_root ++ "/stromschlag.yaml")
         (save_project_descriptor s themed false)])

/-- `exporters.export_icon_pack`: the trace of filesystem operations
performed, and either the returned pack root or the raised error.  The
empty-input check precedes every filesystem operation. -/
def export_icon_pack (ex : String → Bool) (s : PackSettings)
    (icons : List IconDefinition) : List FsOp × Except String String :=
  if icons.isEmpty then ([], .error ("No icons provided for export"))
  else
    let pack_root := s.output_dir ++ "/" ++ themeSlug s
    let prep := prepare_theme_targets pack_root s
    let copyOps := icons.flatMap (iconExportOps ex prep.2)
    let descOps := write_project_descriptors pack_root prep.2 s icons ex
    (prep.1 ++ copyOps ++ descOps, .ok pack_root)

/-! ## Pack installation (`install_icon_pack`) -/

/-- `exporters.ExportResult` (imported by the GUI and tests; the dataclass
itself is not among the provided sources): the pack root and the pack
name used for per-target theme directories. -/
structure ExportResult where
  pack_root : String
  pack_name : String

/-- Modelled from the spec: `install_icon_pack` is imported from
`core.exporters` by `gui/main_window.py` and the tests but absent from the
provided sources.  Per §4.4: for each of `gnome`/`kde` actually produced
under the pack root, for each candidate install root, attempt to copy that
target's theme directory into `<installRoot>/<pack name>/`; a failed copy
is recorded in `failures` with the offending path and error description
and aborts nothing; successful destination paths are collected in
`installed` in target-then-root order.  `copyErr src dest` is the file
copy primitive: `none` on success, `some description` on failure. -/
def presentTargets (isDir : String → Bool) (res : ExportResult) : List String :=
  ([("gnome" : String), ("kde")]).filter
    (fun t => isDir (res.pack_root ++ "/" ++ t))

/-- The source directory of one install attempt:
`pack_root/<target>/<pack name>`. -/
def installSource (res : ExportResult) (t : String) : String :=
  res.pack_root ++ "/" ++ t ++ "/" ++ res.pack_name

/-- The destination of one install attempt: `<installRoot>/<pack name>`. -/
def installDest (res : ExportResult) (root : String) : String :=
  root ++ "/" ++ res.pack_name

/-- Modelled from the spec (continued): the install loop itself. -/
def install_icon_pack (isDir : String → Bool)
    (copyErr : String → String → Option String) (res : ExportResult)
    (roots : List String) : List String × List (String × String) :=
  let present := presentTargets isDir res
  present.foldl (fun acc t =>
    roots.foldl (fun acc2 root =>
      match copyErr (installSource res t) (installDest res root) with
      | none => (acc2.1 ++ [installDest res root], acc2.2)
      | some e => (acc2.1, acc2.2 ++ [(installDest res root, e)])) acc) ([], [])

/-! ## Theme discovery (`core/theme_loader.py`) -/

/-- `theme_loader._ICON_SUBDIRS` (a tuple, so this order is exact). -/
def ICON_SUBDIRS : List String :=
  ["apps", "actions", "status", "panel", "ui", "system", "devices",
   "places", "categories", "mimetypes"]

/-- `theme_loader._ALLOWED_SUFFIXES` (a `set`; its iteration order is
fixed within a process, and every theorem below is parametric in the
traversal order, so one representative order is used). -/
def ALLOWED_SUFFIXES : List String := [".png", ".svg", ".svgz"]

/-- The glob pattern `f"**/{category}/**/*{suffix}"`. -/
def globPattern (category suffix : String) : String :=
  "**/" ++ category ++ "/**/*" ++ suffix

/-- The stream of `(stem, path, category)` candidates `_collect_icon_entries`
iterates over, before de-duplication: categories in tuple order, suffixes
in set order, glob results in filesystem order (`glob` maps a pattern to
the matching paths under the theme root; non-files are skipped). -/
def iconCandidates (glob : String → List String) (isFile : String → Bool) :
    List (String × String × String) :=
  ICON_SUBDIRS.flatMap (fun category =>
    ALLOWED_SUFFIXES.flatMap (fun suffix =>
      ((glob (globPattern category suffix)).filter isFile).map
        (fun path => (pathStem path, path, category))))

/-- The de-duplication / limit loop of `_collect_icon_entries`: skip stems
already seen, stop (returning what has been gathered) as soon as the entry
count reaches the limit.  `count` is the number of entries already
gathered. -/
def collectEntriesAux (limit : Option Nat) :
    Nat → List String → List (String × String × String) →
    List (String × String × String)
  | _, _, [] => []
  | count, seen, c :: rest =>
    if c.1 ∈ seen then collectEntriesAux limit count seen rest
    else
      match limit with
      | some n =>
        if count + 1 ≥ n then [c]
        else c :: collectEntriesAux limit (count + 1) (c.1 :: seen) rest
      | none => c :: collectEntriesAux limit (count + 1) (c.1 :: seen) rest

/-- `theme_loader._collect_icon_entries`. -/
def collect_icon_entries (glob : String → List String)
    (isFile : String → Bool) (limit : Option Nat) :
    List (String × String × String) :=
  collectEntriesAux limit 0 [] (iconCandidates glob isFile)

/-- An installed-theme directory listing used by `list_installed_themes`:
`fsExists`/`fsIsDir` model `Path.exists`/`Path.is_dir`, `children` lists a
directory's child names (`iterdir`), `resolve` models `Path.resolve`
(symlink/absolute resolution). -/
structure DirFS where
  fsExists : String → Bool
  fsIsDir : String → Bool
  children : String → List String
  resolve : String → String

/-- `theme_loader.ThemeCandidate`. -/
structure ThemeCandidate where
  name : String
  path : String
  deriving Repr, DecidableEq

/-- `theme_loader._SYSTEM_ICON_DIRS`. -/
def SYSTEM_ICON_DIRS (home : String) : List String :=
  [home ++ "/.local/share/icons", home ++ "/.icons",
   "/usr/share/icons", "/usr/local/share/icons"]

/-- The per-child body of the `list_installed_themes` loop: keep a child
directory that directly contains an `index.theme` and whose resolved path
was not seen before. -/
def themeStep (fs : DirFS) (base : String)
    (acc : List ThemeCandidate × List String) (childName : String) :
    List ThemeCandidate × List String :=
  let child := base ++ "/" ++ childName
  if fs.fsIsDir child ∧ fs.fsExists (child ++ "/index.theme") then
    let key := fs.resolve child
    if key ∈ acc.2 then acc
    else (acc.1 ++ [⟨childName, child⟩], acc.2 ++ [key])
  else acc

/-- The body of `list_installed_themes` for one search root: walk the
children in sorted order, keeping qualifying unseen directories.  Returns
the candidates found under this root and the updated seen set. -/
def processRoot (fs : DirFS) (base : String) (seen : List String) :
    List ThemeCandidate × List String :=
  if fs.fsExists base ∧ fs.fsIsDir base then
    (List.insertionSort (fun a b => strLe a b = true) (fs.children base)).foldl
      (themeStep fs base) ([], seen)
  else ([], seen)

/-- `theme_loader.list_installed_themes`: extra search paths first, then
the conventional system directories; the seen set threads across roots. -/
def list_installed_themes (fs : DirFS) (home : String)
    (extra : List String) : List ThemeCandidate :=
  ((extra ++ SYSTEM_ICON_DIRS home).foldl (fun acc base =>
      (acc.1 ++ (processRoot fs base acc.2).1,
       (processRoot fs base acc.2).2)) ([], [])).1

/-! ## Seeding from an existing pack (`gui/main_window.py`,
`MainWindow._collect_icon_sources`) -/

/-- The cumulative preference weight the code assigns a candidate file:
`+1` when the extension is not a vector format, `+2` when no (lowercased)
path component is `scalable`, `+1` when no (lowercased) path component is
`apps` or `mimetypes`. -/
def sourceWeight (path : String) : Nat :=
  let suffix := strLower (pathSuffix path)
  let normalizedParts := (pathParts path).map strLower
  (if isVectorSuffix suffix then 0 else 1)
    + (if ("scalable") ∈ normalizedParts then 0 else 2)
    + (if ("apps") ∈ normalizedParts ∨ ("mimetypes") ∈ normalizedParts
       then 0 else 1)

/-- The category recorded for a candidate: its parent directory's name,
or `None` when the parent is the scanned directory itself. -/
def sourceCategory (directory : String) (path : String) : Option String :=
  if pathParent path = directory then none
  else some (lastComponent (pathParent path))

/-- The loop body of `_collect_icon_sources`: keep the existing winner for
this stem unless the new file's weight is strictly lower. -/
def updateWinners (directory : String)
    (w : List (String × (Nat × String × Option String))) (path : String) :
    List (String × (Nat × String × Option String)) :=
  let name := pathStem path
  let weight := sourceWeight path
  match alLookup name w with
  | some e =>
    if e.1 ≤ weight then w
    else alUpdate w name (weight, path, sourceCategory directory path)
  | none => alUpdate w name (weight, path, sourceCategory directory path)

/-- The candidate files `_collect_icon_sources` iterates over: the
recursive listing (`files`, as `rglob` returns it) in sorted order,
restricted to files with an allowed extension. -/
def sourceCandidates (files : List String) (isFile : String → Bool) :
    List String :=
  (List.insertionSort (fun a b => pathLe a b = true) files).filter
    (fun p => isFile p ∧ (strLower (pathSuffix p)) ∈ ALLOWED_SUFFIXES)

/-- The winners dictionary after the scan. -/
def collectWinners (directory : String) (files : List String)
    (isFile : String → Bool) : List (String × (Nat × String × Option String)) :=
  (sourceCandidates files isFile).foldl (updateWinners directory) []

/-- `MainWindow._collect_icon_sources`: winners sorted by stem, projected
to `(name, path, category)`. -/
def collect_icon_sources (directory : String) (files : List String)
    (isFile : String → Bool) : List (String × String × Option String) :=
  (List.insertionSort (fun a b => strLe a.1 b.1 = true)
      (collectWinners directory files isFile)).map
    (fun kv => (kv.1, kv.2.2.1, kv.2.2.2))

/-! # Theorems settling the claims -/

/-! ## C3: empty icon set fails before any filesystem mutation -/

/-- Claim C3: for every settings value (and filesystem state), assembly
invoked with an empty icon list fails with the empty-icon-set error, and
the operation trace is empty: no directory is created and no file is
written or copied before the failure. -/
theorem c3_empty_icon_set_atomic (ex : String → Bool) (s : PackSettings) :
    export_icon_pack ex s [] = ([], .error ("No icons provided for export")) :=
  rfl

/-! ## C9: collecting with a limit yields a prefix of the unlimited run -/

/-- The limited de-duplication loop produces exactly the first
`n - count` entries of the unlimited loop. -/
theorem collectEntriesAux_limit (n : Nat) :
    ∀ (cs : List (String × String × String)) (count : Nat) (seen : List String),
      count < n →
      collectEntriesAux (some n) count seen cs
        = (collectEntriesAux none count seen cs).take (n - count)
  | [], _, _, _ => by simp [collectEntriesAux]
  | c :: rest, count, seen, hlt => by
    by_cases hmem : c.1 ∈ seen
    · simp only [collectEntriesAux, if_pos hmem]
      exact collectEntriesAux_limit n rest count seen hlt
    · simp only [collectEntriesAux, if_neg hmem]
      by_cases hge : count + 1 ≥ n
      · have hn : n - count = 1 := by omega
        simp [hge, hn]
      · have hlt' : count + 1 < n := by omega
        have htake : n - count = (n - (count + 1)) + 1 := by omega
        simp only [ge_iff_le, if_neg hge, htake, List.take_succ_cons]
        rw [collectEntriesAux_limit n rest (count + 1) (c.1 :: seen) hlt']

/-- Claim C9: for every theme root (abstracted as its glob/file-kind
view) and every positive limit `n`, collecting icon entries with
`limit = n` returns exactly the first `n` entries — a prefix, in the same
order — of the unlimited collection, and in particular at most `n`
entries. -/
theorem c9_limited_collect (glob : String → List String)
    (isFile : String → Bool) (n : Nat) (hn : 0 < n) :
    collect_icon_entries glob isFile (some n)
        = (collect_icon_entries glob isFile none).take n
      ∧ (collect_icon_entries glob isFile (some n)).length ≤ n := by
  have h := collectEntriesAux_limit n (iconCandidates glob isFile) 0 [] hn
  simp only [Nat.sub_zero] at h
  refine ⟨h, ?_⟩
  rw [collect_icon_entries, h]
  simp

/-- Witness for C9 at a concrete five-file theme and `limit = 2`. -/
theorem c9_limited_collect_witness :
    collect_icon_entries
        (fun pat => if pat = ("**/apps/**/*.png") then
          [("t/apps/a.png"), ("t/apps/b.png"), ("t/apps/c.png"),
           ("t/apps/a.png"), ("t/apps/d.png")] else [])
        (fun _ => true) (some 2)
      = (collect_icon_entries
          (fun pat => if pat = ("**/apps/**/*.png") then
            [("t/apps/a.png"), ("t/apps/b.png"), ("t/apps/c.png"),
             ("t/apps/a.png"), ("t/apps/d.png")] else [])
          (fun _ => true) none).take 2 :=
  (c9_limited_collect _ _ 2 (by decide)).1

/-! ## C5: installation attempts every (target, root) pair independently -/

/-- The (target, installRoot) pairs in target-then-root iteration order. -/
def c5_pairs (isDir : String → Bool) (res : ExportResult)
    (roots : List String) : List (String × String) :=
  (presentTargets isDir res).flatMap (fun t => roots.map (fun r => (t, r)))

/-- Inner loop of `install_icon_pack`: appends one success or one failure
per root, aborting nothing. -/
theorem install_inner_fold (copyErr : String → String → Option String)
    (res : ExportResult) (t : String) :
    ∀ (roots : List String) (acc : List String × List (String × String)),
      (roots.foldl (fun acc2 root =>
          match copyErr (installSource res t) (installDest res root) with
          | none => (acc2.1 ++ [installDest res root], acc2.2)
          | some e => (acc2.1, acc2.2 ++ [(installDest res root, e)])) acc)
        = (acc.1 ++ roots.filterMap (fun root =>
              match copyErr (installSource res t) (installDest res root) with
              | none => some (installDest res root)
              | some _ => none),
           acc.2 ++ roots.filterMap (fun root =>
              match copyErr (installSource res t) (installDest res root) with
              | none => none
              | some e => some (installDest res root, e)))
  | [], acc => by simp
  | root :: rest, acc => by
    simp only [List.foldl_cons, List.filterMap_cons]
    cases h : copyErr (installSource res t) (installDest res root) with
    | none => simp [install_inner_fold copyErr res t rest, h]
    | some e => simp [install_inner_fold copyErr res t rest, h]

/-- Claim C5: installation attempts each (target, install root) pair
independently — every pair in target-then-root order contributes exactly
one outcome, a failure being recorded in `failures` with the offending
destination path and error description without aborting any other
attempt, and `installed` collecting exactly the destinations of the
successful copies in that same order.  (The embedded operation is total:
an individual failed copy never raises.) -/
theorem c5_install_independent (isDir : String → Bool)
    (copyErr : String → String → Option String) (res : ExportResult)
    (roots : List String) :
    install_icon_pack isDir copyErr res roots
      = ((c5_pairs isDir res roots).filterMap (fun pr =>
            match copyErr (installSource res pr.1) (installDest res pr.2) with
            | none => some (installDest res pr.2)
            | some _ => none),
         (c5_pairs isDir res roots).filterMap (fun pr =>
            match copyErr (installSource res pr.1) (installDest res pr.2) with
            | none => none
            | some e => some (installDest res pr.2, e))) := by
  rw [install_icon_pack, c5_pairs]
  generalize presentTargets isDir res = present
  induction present using List.reverseRecOn with
  | nil => simp
  | append_singleton ts t ih =>
    rw [List.foldl_append, List.foldl_cons, List.foldl_nil, ih]
    rw [install_inner_fold copyErr res t roots _]
    simp only [List.flatMap_append, List.filterMap_append, List.filterMap_map,
      List.flatMap_singleton, Function.comp_def]

/-! ## C2: project file round-trip -/

/-- Counterexample to claim C2 as stated: at this concrete project,
`load_project ∘ save_project` resets the settings' `version` field to the
tool version, rewrites a `~`-prefixed icon source path by user expansion,
and drops an empty-string category — so neither the settings nor every
icon's (name, category, source_path) triple is reproduced exactly. -/
theorem c2_round_trip_counterexample :
    let s : PackSettings :=
      { name := "Test Pack", author := "Tester", version := "9.9.9",
        description := "Demo", base_sizes := [32], output_dir := "out",
        targets := ["kde"] }
    let icons : List IconDefinition :=
      [{ name := "Folder", glyph := some "F",
         source_path := some "~/folder.png", category := some "apps" },
       { name := "Gear", category := some "" }]
    let loaded := load_project ("/home/u") (save_project s icons)
    (loaded.1 ≠ s ∧ loaded.1.version = "0.1.0" ∧ s.version = "9.9.9")
      ∧ loaded.2.map (fun i => i.source_path) = [some ("/home/u/folder.png"), none]
      ∧ icons.map (fun i => i.source_path) = [some ("~/folder.png"), none]
      ∧ loaded.2.map (fun i => i.category) = [some ("apps"), none]
      ∧ icons.map (fun i => i.category) = [some ("apps"), some ("")] := by
  intro s icons loaded
  refine ⟨⟨by decide, rfl, rfl⟩, rfl, rfl, rfl, rfl⟩

/-- The icon list round-trips its (name, category, source_path) triples,
under the amended side conditions on categories and source paths. -/
theorem load_icons_save_round_trip (home : String) :
    ∀ (icons : List IconDefinition) (k : Nat),
      (∀ i ∈ icons, i.category ≠ some "") →
      (∀ i ∈ icons, match i.source_path with
        | some p => p ≠ "" ∧ expanduser home p = p
        | none => True) →
      (load_icons home k (icons.map save_icon_entry)).map
          (fun i => (i.name, i.category, i.source_path))
        = icons.map (fun i => (i.name, i.category, i.source_path))
  | [], _, _, _ => rfl
  | i :: rest, k, hcat, hsp => by
    have hcat0 : i.category ≠ some "" := hcat i (by simp)
    have hsp0 := hsp i (by simp)
    have ih := load_icons_save_round_trip home rest (k + 1)
      (fun j hj => hcat j (by simp [hj])) (fun j hj => hsp j (by simp [hj]))
    simp only [List.map_cons, load_icons, ih, List.cons.injEq,
      Prod.mk.injEq, and_true]
    refine ⟨?_, ?_, ?_⟩
    · simp [load_icon, save_icon_entry, ygetStr, yget, List.find?]
    · rcases hc : i.category with _ | c
      · rcases hp : i.source_path with _ | p <;>
          simp [load_icon, save_icon_entry, yget, List.find?, hc, hp]
      · have hcne : c ≠ "" := by
          intro h
          exact hcat0 (by rw [hc, h])
        rcases hp : i.source_path with _ | p <;>
          simp [load_icon, save_icon_entry, yget, List.find?, hc, hp, hcne]
    · rcases hp : i.source_path with _ | p
      · rcases hc : i.category with _ | c
        · simp [load_icon, save_icon_entry, yget, List.find?, hc, hp]
        · by_cases hcne : c = "" <;>
            simp [load_icon, save_icon_entry, yget, List.find?, hc, hp, hcne]
      · rw [hp] at hsp0
        rcases hc : i.category with _ | c
        · simp [load_icon, save_icon_entry, yget, List.find?, hc, hp,
            hsp0.1, hsp0.2]
        · by_cases hcne : c = "" <;>
            simp [load_icon, save_icon_entry, yget, List.find?, hc, hp,
              hcne, hsp0.1, hsp0.2]

/-- Claim C2 as amended: `load_project ∘ save_project` reproduces every
settings field except `version` (which is reset to the tool's version
constant, so it round-trips exactly when it already equals that constant),
and reproduces each icon's name, category and source path exactly,
provided no category is the empty string and every stored source path is
non-empty and unaffected by user-directory expansion (true of every real
`Path`, which never stringifies to `""`, that does not start with `~`). -/
theorem c2_round_trip_amended (home : String) (s : PackSettings)
    (icons : List IconDefinition)
    (hver : s.version = STROMSCHLAG_VERSION)
    (hcat : ∀ i ∈ icons, i.category ≠ some "")
    (hsp : ∀ i ∈ icons, match i.source_path with
      | some p => p ≠ "" ∧ expanduser home p = p
      | none => True) :
    (load_project home (save_project s icons)).1 = s
      ∧ (load_project home (save_project s icons)).2.map
            (fun i => (i.name, i.category, i.source_path))
          = icons.map (fun i => (i.name, i.category, i.source_path)) := by
  constructor
  · obtain ⟨n, a, v, de, inh, bs, od, tg⟩ := s
    simp only [STROMSCHLAG_VERSION] at hver
    subst hver
    simp only [load_project, save_project, ygetStr, ygetList, yget,
      List.find?]
    simp [List.map_map, Function.comp_def, yint, ystr, STROMSCHLAG_VERSION]
  · exact load_icons_save_round_trip home icons 1 hcat hsp

/-- Witness for the amended C2 at a concrete two-icon project. -/
theorem c2_round_trip_amended_witness :
    let s : PackSettings :=
      { name := "My Pack", author := "Tester", description := "",
        base_sizes := [16, 32], output_dir := "build", targets := ["gnome"] }
    let icons : List IconDefinition :=
      [{ name := "Folder", source_path := some "/assets/folder.png",
         category := some "apps" },
       { name := "Gear" }]
    (load_project ("/home/u") (save_project s icons)).1 = s
      ∧ (load_project ("/home/u") (save_project s icons)).2.map
            (fun i => (i.name, i.category, i.source_path))
          = icons.map (fun i => (i.name, i.category, i.source_path)) :=
  c2_round_trip_amended ("/home/u") _ _ rfl (by decide)
    (by
      intro i hi
      simp only [List.mem_cons, List.not_mem_nil, or_false] at hi
      rcases hi with rfl | rfl
      · exact ⟨by decide, by decide⟩
      · trivial)

/-! ## C6: the `PackSettings` invariant -/

/-- The claimed `base_sizes` invariant: non-empty, strictly ascending
(hence duplicate-free) positive integers. -/
def c6_sizes_invariant (l : List Int) : Prop :=
  l ≠ [] ∧ l.Chain' (· < ·) ∧ ∀ n ∈ l, 0 < n

/-- `PackSettings` built with only the code's defaults. -/
def defaultPackSettings (name author : String) : PackSettings :=
  { name := name, author := author }

/-- Counterexample to claim C6 as stated: `load_project` is a construction
path into assembly, yet it performs no validation — a document listing
`base_sizes: [0, 3, 3]` loads verbatim, violating positivity and
duplicate collapsing (and `base_sizes: []` would load as empty). -/
theorem c6_invariant_counterexample :
    let d : YVal := .dict [(("base_sizes"), .list [.int 0, .int 3, .int 3])]
    (load_project ("/home/u") d).1.base_sizes = [0, 3, 3]
      ∧ ¬ c6_sizes_invariant (load_project ("/home/u") d).1.base_sizes
      ∧ (load_project ("/home/u")
          (.dict [(("base_sizes"), .list [])])).1.base_sizes = [] := by
  intro d
  refine ⟨rfl, ?_, rfl⟩
  intro h
  have := h.2.2 0 (by rw [show (load_project ("/home/u") d).1.base_sizes
    = [0, 3, 3] from rfl]; simp)
  omega

/-- Claim C6 as amended: the default construction satisfies the
`base_sizes` invariant, and the assembler resolves `targets` to a
non-empty subset of `{gnome, kde}` (falling back to both); but
`load_project` does not validate `base_sizes` — it passes through
whatever integers the document lists. -/
theorem c6_invariant_amended (name author : String) (s : PackSettings) :
    c6_sizes_invariant (defaultPackSettings name author).base_sizes
      ∧ resolvedTargets s ≠ []
      ∧ ∀ t ∈ resolvedTargets s, t = "gnome" ∨ t = "kde" := by
  refine ⟨?_, ?_, ?_⟩
  · rw [show (defaultPackSettings name author).base_sizes
      = [16, 24, 32, 48, 64, 128] from rfl]
    exact ⟨by decide, by norm_num [List.chain'_cons, List.chain'_singleton],
      by decide⟩
  · rw [resolvedTargets]
    by_cases h : s.targets.filter (fun t => t = "gnome" ∨ t = "kde") = []
    · rw [if_pos h]
      decide
    · rw [if_neg h]
      exact h
  · intro t ht
    rw [resolvedTargets] at ht
    by_cases h : s.targets.filter (fun t => t = "gnome" ∨ t = "kde") = []
    · rw [if_pos h] at ht
      simp only [List.mem_cons, List.not_mem_nil, or_false] at ht
      rcases ht with rfl | rfl
      · exact Or.inl rfl
      · exact Or.inr rfl
    · rw [if_neg h] at ht
      have := List.of_mem_filter ht
      simpa using this

/-! ## C7: the `index.theme` text -/

/-- Every character written by `Nat.toDigitsCore` is a decimal digit
character or comes from the accumulator. -/
theorem toDigitsCore_chars (P : Char → Prop)
    (hdigit : ∀ k, k < 10 → P (Nat.digitChar k)) :
    ∀ (f n : Nat) (acc : List Char), (∀ c ∈ acc, P c) →
      ∀ c ∈ Nat.toDigitsCore 10 f n acc, P c
  | 0, _, acc, hacc => hacc
  | f + 1, n, acc, hacc => by
    have hd : P (Nat.digitChar (n % 10)) := hdigit _ (Nat.mod_lt _ (by omega))
    have hacc' : ∀ c ∈ Nat.digitChar (n % 10) :: acc, P c := by
      intro c hc
      rcases List.mem_cons.1 hc with rfl | hc
      · exact hd
      · exact hacc c hc
    intro c hc
    rw [Nat.toDigitsCore] at hc
    by_cases hz : n / 10 = 0
    · rw [if_pos hz] at hc
      exact hacc' c hc
    · rw [if_neg hz] at hc
      exact toDigitsCore_chars P hdigit f (n / 10) _ hacc' c hc

/-- No character of an integer's decimal rendering is `x` or `/`. -/
theorem int_toString_chars (n : Int) :
    ∀ c ∈ (toString n).data, c ≠ ('x') ∧ c ≠ ('/') := by
  have hdigit : ∀ k, k < 10 → Nat.digitChar k ≠ ('x') ∧ Nat.digitChar k ≠ ('/') := by
    decide
  have hnat : ∀ (m : Nat) (c : Char), c ∈ (Nat.repr m).data → c ≠ ('x') ∧ c ≠ ('/') := by
    intro m c hc
    exact toDigitsCore_chars (fun c => c ≠ ('x') ∧ c ≠ ('/')) hdigit
      (m + 1) m [] (by simp) c hc
  cases n with
  | ofNat m => exact fun c hc => hnat m c hc
  | negSucc m =>
    intro c hc
    rw [show toString (Int.negSucc m) = "-" ++ Nat.repr (m + 1) from rfl,
      String.data_append] at hc
    rcases List.mem_append.1 hc with hc | hc
    · rcases List.mem_singleton.1 hc with rfl
      exact ⟨by decide, by decide⟩
    · exact hnat _ c hc

/-- `takeWhile` passes over a block whose characters all satisfy the
predicate. -/
theorem takeWhile_append_all {p : Char → Bool} :
    ∀ (l₁ l₂ : List Char), (∀ c ∈ l₁, p c) →
      (l₁ ++ l₂).takeWhile p = l₁ ++ l₂.takeWhile p
  | [], _, _ => rfl
  | c :: l₁, l₂, h => by
    have hc : p c := h c (by simp)
    simp only [List.cons_append, List.takeWhile_cons_of_pos hc]
    rw [takeWhile_append_all l₁ l₂ (fun d hd => h d (by simp [hd]))]

/-- The `index.theme` section the loop emits for a size-bucket directory:
re-parsing the directory name recovers the configured size. -/
theorem indexThemeSection_size (n : Int) :
    indexThemeSection (sizeDirRel n)
      = "[" ++ sizeDirRel n ++ "]\nSize=" ++ toString n ++ "\nType=Fixed\n\n" := by
  have hchars := int_toString_chars n
  have hslash : ∀ c ∈ (toString n).data ++ [('x')], (fun c => decide (c ≠ ('/'))) c = true := by
    intro c hc
    rcases List.mem_append.1 hc with hc | hc
    · simpa using (hchars c hc).2
    · rcases List.mem_singleton.1 hc with rfl
      decide
  have hsizePart :
      (sizeDirRel n).data.takeWhile (fun c => decide (c ≠ ('/')))
        = (toString n).data ++ ('x') :: (toString n).data := by
    rw [show (sizeDirRel n).data
        = ((toString n).data ++ [('x')]) ++ ((toString n).data ++ ('/') :: ("apps").data) by
      simp [sizeDirRel, String.data_append, List.append_assoc]]
    rw [takeWhile_append_all _ _ hslash,
      takeWhile_append_all ((toString n).data) _
        (fun c hc => by simpa using (hchars c hc).2),
      List.takeWhile_cons_of_neg (by decide)]
    simp
  have hxmem : ('x') ∈ (toString n).data ++ ('x') :: (toString n).data := by
    simp
  have hsizeValue :
      ((toString n).data ++ ('x') :: (toString n).data).takeWhile
          (fun c => decide (c ≠ ('x')))
        = (toString n).data := by
    rw [takeWhile_append_all _ _ (fun c hc => by simpa using (hchars c hc).1),
      List.takeWhile_cons_of_neg (by decide)]
    simp
  rw [indexThemeSection]
  simp only [hsizePart, hxmem, if_pos, hsizeValue]

/-- `String.join` distributes over list append. -/
theorem string_join_append (l₁ l₂ : List String) :
    String.join (l₁ ++ l₂) = String.join l₁ ++ String.join l₂ := by
  have hfold : ∀ (l : List String) (a b : String),
      l.foldl (· ++ ·) (a ++ b) = a ++ l.foldl (· ++ ·) b := by
    intro l
    induction l with
    | nil => intro a b; rfl
    | cons x l ih =>
      intro a b
      simp only [List.foldl_cons, String.append_assoc, ih]
  show (l₁ ++ l₂).foldl (· ++ ·) "" = l₁.foldl (· ++ ·) "" ++ l₂.foldl (· ++ ·) ""
  calc (l₁ ++ l₂).foldl (· ++ ·) ""
      = l₂.foldl (· ++ ·) (l₁.foldl (· ++ ·) "") := by rw [List.foldl_append]
    _ = l₂.foldl (· ++ ·) (l₁.foldl (· ++ ·) "" ++ "") := by simp
    _ = l₁.foldl (· ++ ·) "" ++ l₂.foldl (· ++ ·) "" := hfold l₂ _ ""

/-- The `index.theme` text the claim describes, spelled out: the four
header keys, the comment falling back to the crafted-by line, the
comma-joined directory list in creation order, `Size=<n>`/`Type=Fixed`
per size bucket and `Size=128`/`Type=Scalable` for the scalable bucket. -/
def c7_spec_content (s : PackSettings) : String :=
  "[Icon Theme]\nName=" ++ s.name
    ++ "\nComment="
    ++ (if s.description = "" then "Icon theme crafted by " ++ s.author
        else s.description)
    ++ "\nInherits=" ++ s.inherits
    ++ "\nDirectories="
    ++ String.intercalate (",") (s.base_sizes.map sizeDirRel ++ ["scalable/apps"])
    ++ "\n\n"
    ++ String.join (s.base_sizes.map (fun n =>
        "[" ++ sizeDirRel n ++ "]\nSize=" ++ toString n ++ "\nType=Fixed\n\n"))
    ++ "[scalable/apps]\nSize=128\nType=Scalable\n\n"

/-- Claim C7: for every settings value, the `index.theme` content written
in each target root (the loop writes the same text for every target) is
exactly the claimed text: `Name`, `Comment` (description, falling back to
`"Icon theme crafted by <author>"` when empty), `Inherits`, `Directories`
(comma-joined created directories, size buckets in configured order then
`scalable/apps`), one `Size=<n>`/`Type=Fixed` section per size bucket and
a `Size=128`/`Type=Scalable` section for the scalable bucket. -/
theorem c7_index_theme_content (s : PackSettings) :
    indexThemeContent s (directoriesFor s) (themeComment s) = c7_spec_content s := by
  rw [indexThemeContent, c7_spec_content, themeComment, directoriesFor]
  rw [List.map_append, string_join_append]
  rw [show List.map indexThemeSection (List.map sizeDirRel s.base_sizes)
      = s.base_sizes.map (fun n =>
          "[" ++ sizeDirRel n ++ "]\nSize=" ++ toString n ++ "\nType=Fixed\n\n") from by
    rw [List.map_map]
    exact List.map_congr_left (fun n _ => indexThemeSection_size n)]
  rw [show String.join (List.map indexThemeSection ["scalable/apps"])
      = "[scalable/apps]\nSize=128\nType=Scalable\n\n" from rfl]
  simp [String.append_assoc]

/-! ## C1: which files each icon's asset is copied to -/

/-- Keys of a `dict` after an update: unchanged when present, appended
when new. -/
theorem alUpdate_keys {κ β : Type} [DecidableEq κ] (v : β) :
    ∀ (d : List (κ × β)) (k : κ),
      (alUpdate d k v).map Prod.fst
        = if k ∈ d.map Prod.fst then d.map Prod.fst
          else d.map Prod.fst ++ [k]
  | [], k => by simp [alUpdate]
  | (k', v') :: rest, k => by
    by_cases h : k' = k
    · subst h
      simp [alUpdate]
    · simp only [alUpdate, if_neg h, List.map_cons, alUpdate_keys v rest k]
      by_cases hm : k ∈ rest.map Prod.fst
      · rw [if_pos hm, if_pos (by simp [hm])]
      · rw [if_neg hm, if_neg (by simp [hm, Ne.symm h]), List.cons_append]

/-- A `dict` whose values are determined by their keys keeps that shape
under updates with the same value function. -/
theorem alUpdate_entries {κ β : Type} [DecidableEq κ] {f : κ → β} :
    ∀ (d : List (κ × β)) (k : κ), (∀ kv ∈ d, kv.2 = f kv.1) →
      ∀ kv ∈ alUpdate d k (f k), kv.2 = f kv.1
  | [], k, _ => by simp [alUpdate]
  | (k', v') :: rest, k, h => by
    by_cases hk : k' = k
    · subst hk
      simp only [alUpdate, if_pos rfl]
      intro kv hkv
      rcases List.mem_cons.1 hkv with rfl | hkv
      · rfl
      · exact h kv (by simp [hkv])
    · simp only [alUpdate, if_neg hk]
      intro kv hkv
      rcases List.mem_cons.1 hkv with h1 | hkv
      · rw [h1]
        exact h (k', v') (by simp)
      · exact alUpdate_entries rest k (fun kv hkv => h kv (by simp [hkv])) kv hkv

/-- The configured sizes with duplicates collapsed (first occurrence
kept) — the key order of the `size_dirs` dict. -/
def dedupSizes (l : List Int) : List Int :=
  l.foldl (fun ks n => if n ∈ ks then ks else ks ++ [n]) []

/-- The values of the `size_dirs` dict are the per-size directories of
the de-duplicated size list, in first-insertion order. -/
theorem size_dirs_values (f : Int → String) :
    ∀ (l : List Int) (d : List (Int × String)), (∀ kv ∈ d, kv.2 = f kv.1) →
      (l.foldl (fun acc n => alUpdate acc n (f n)) d).map Prod.snd
        = (l.foldl (fun ks n => if n ∈ ks then ks else ks ++ [n])
            (d.map Prod.fst)).map f
  | [], d, h => by
    simp only [List.foldl_nil]
    calc d.map Prod.snd = d.map (fun kv => f kv.1) := List.map_congr_left h
      _ = (d.map Prod.fst).map f := by rw [List.map_map]; rfl
  | n :: l, d, h => by
    simp only [List.foldl_cons]
    rw [size_dirs_values f l (alUpdate d n (f n)) (alUpdate_entries d n h),
      alUpdate_keys (f n) d n]

/-- `flatMap` respects pointwise-equal functions. -/
theorem flatMap_congr_left {α β : Type} {f g : α → List β} :
    ∀ l : List α, (∀ a ∈ l, f a = g a) → l.flatMap f = l.flatMap g
  | [], _ => rfl
  | a :: l, h => by
    simp only [List.flatMap_cons, h a (by simp),
      flatMap_congr_left l (fun b hb => h b (by simp [hb]))]

/-- `flatMap` of singletons is a `map`. -/
theorem flatMap_singleton_map {α β : Type} (g : α → β) :
    ∀ l : List α, (l.flatMap fun a => [g a]) = l.map g
  | [] => rfl
  | a :: l => by
    simp only [List.flatMap_cons, List.map_cons, List.singleton_append,
      flatMap_singleton_map g l]

/-- The theme root of one resolved target, spelled out from the settings:
`output_dir/<slug>/<desktop>/<pack name>`. -/
def c1_target_root (s : PackSettings) (desktop : String) : String :=
  s.output_dir ++ "/" ++ slugify s.name ++ "/" ++ desktop ++ "/" ++ s.name

/-- The `scalable/apps` directory of one resolved target. -/
def scalableDirOf (s : PackSettings) (desktop : String) : String :=
  c1_target_root s desktop ++ "/scalable/apps"

/-- One size-bucket directory of one resolved target. -/
def sizeDirOf (s : PackSettings) (desktop : String) (n : Int) : String :=
  c1_target_root s desktop ++ "/" ++ sizeDirRel n

/-- The copies claim C1 prescribes for one icon: nothing without a
resolvable source; a vector source goes unchanged into each resolved
target's `scalable/apps` only; any other source goes unchanged into every
configured size directory and into `scalable/apps` of each target —
always under the name `slug(icon.name) + ".png"`. -/
def c1_spec_copies (s : PackSettings) (ex : String → Bool)
    (i : IconDefinition) : List FsOp :=
  match i.source_path with
  | none => []
  | some src =>
    if ex src then
      if isVectorSuffix (strLower (pathSuffix src)) then
        (resolvedTargets s).map (fun d =>
          FsOp.copy src (scalableDirOf s d ++ "/" ++ icon_filename i.name))
      else
        (resolvedTargets s).flatMap (fun d =>
          (dedupSizes s.base_sizes).map (fun n =>
            FsOp.copy src (sizeDirOf s d n ++ "/" ++ icon_filename i.name))
          ++ [FsOp.copy src (scalableDirOf s d ++ "/" ++ icon_filename i.name)])
    else []

/-- Directory preparation performs no file copy. -/
theorem prepare_no_copy (root : String) (s : PackSettings) :
    (prepare_theme_targets root s).1.filter FsOp.isCopy = [] := by
  rw [List.filter_eq_nil_iff]
  intro op hop
  simp only [prepare_theme_targets, List.mem_flatMap] at hop
  obtain ⟨d, -, hop⟩ := hop
  simp only [prepareTarget, List.mem_append, List.mem_cons, List.mem_map,
    List.mem_singleton, List.not_mem_nil, or_false] at hop
  rcases hop with (rfl | ⟨n, -, rfl⟩) | rfl | rfl <;> simp [FsOp.isCopy]

/-- Descriptor writing performs no file copy. -/
theorem descriptors_no_copy (pack_root : String) (targets : List ThemeTarget)
    (s : PackSettings) (icons : List IconDefinition) (ex : String → Bool) :
    (write_project_descriptors pack_root targets s icons ex).filter
        FsOp.isCopy = [] := by
  rw [List.filter_eq_nil_iff]
  intro op hop
  simp only [write_project_descriptors, List.mem_append, List.mem_cons,
    List.mem_singleton, List.not_mem_nil, List.mem_flatMap, or_false] at hop
  rcases hop with (rfl | rfl) | ⟨t, -, hop⟩
  · simp [FsOp.isCopy]
  · simp [FsOp.isCopy]
  · rcases hop with rfl | rfl <;> simp [FsOp.isCopy]

/-- Every operation the icon loop emits is a copy. -/
theorem iconExportOps_all_copy (ex : String → Bool)
    (targets : List ThemeTarget) (i : IconDefinition) :
    ∀ op ∈ iconExportOps ex targets i, op.isCopy = true := by
  intro op hop
  rw [iconExportOps] at hop
  by_cases h : hasSourceAsset ex i
  · rw [if_pos h] at hop
    rcases hsp : i.source_path with _ | src
    · rw [hsp] at hop
      simp [copy_source_asset] at hop
    · rw [hsp] at hop
      simp only [copy_source_asset, List.mem_flatMap] at hop
      obtain ⟨t, -, hop⟩ := hop
      by_cases hv : isVectorSuffix (strLower (pathSuffix src))
      · rw [if_pos hv] at hop
        rcases List.mem_singleton.1 hop with rfl
        rfl
      · rw [if_neg hv] at hop
        rcases List.mem_append.1 hop with hop | hop
        · obtain ⟨kv, -, rfl⟩ := List.mem_map.1 hop
          rfl
        · rcases List.mem_singleton.1 hop with rfl
          rfl
  · rw [if_neg h] at hop
    simp at hop

/-- The per-icon export loop body equals the claim's per-icon copy list. -/
theorem iconExportOps_eq_spec (ex : String → Bool) (s : PackSettings)
    (i : IconDefinition) :
    iconExportOps ex
        (prepare_theme_targets (s.output_dir ++ "/" ++ themeSlug s) s).2 i
      = c1_spec_copies s ex i := by
  rw [iconExportOps, c1_spec_copies, hasSourceAsset]
  rcases hp : i.source_path with _ | src
  · simp [hp]
  · simp only [hp]
    by_cases hex : ex src
    · simp only [if_pos hex, copy_source_asset]
      simp only [prepare_theme_targets, List.flatMap_map]
      by_cases hv : isVectorSuffix (strLower (pathSuffix src))
      · simp only [if_pos hv]
        exact flatMap_singleton_map _ (resolvedTargets s)
      · simp only [if_neg hv]
        refine flatMap_congr_left (resolvedTargets s) (fun d _ => ?_)
        have hsd := size_dirs_values
          (fun n => c1_target_root s d ++ "/" ++ sizeDirRel n)
          s.base_sizes [] (by simp)
        simp only [List.map_nil] at hsd
        congr 1
        calc ((prepareTarget (s.output_dir ++ "/" ++ themeSlug s) s
                (themeComment s) d).2.size_dirs).map
              (fun kv => FsOp.copy src (kv.2 ++ "/" ++ icon_filename i.name))
            = (((prepareTarget (s.output_dir ++ "/" ++ themeSlug s) s
                (themeComment s) d).2.size_dirs).map Prod.snd).map
                (fun dir => FsOp.copy src (dir ++ "/" ++ icon_filename i.name)) := by
              rw [List.map_map]
              rfl
          _ = (dedupSizes s.base_sizes).map (fun n =>
                FsOp.copy src (sizeDirOf s d n ++ "/" ++ icon_filename i.name)) := by
              rw [show (prepareTarget (s.output_dir ++ "/" ++ themeSlug s) s
                  (themeComment s) d).2.size_dirs
                = s.base_sizes.foldl (fun acc n => alUpdate acc n
                    (c1_target_root s d ++ "/" ++ sizeDirRel n)) [] from rfl]
              rw [hsd, List.map_map]
              rfl
    · simp only [if_neg hex]

/-- Claim C1: in the whole export trace, the file copies are exactly, icon
by icon in input order: for an icon with a resolvable vector source, one
verbatim copy into each resolved target's `scalable/apps` under
`slug(name) + ".png"`; for an icon with any other resolvable source, one
verbatim copy into every configured size directory and into
`scalable/apps` of each resolved target under that same name; and no copy
at all for an icon without a resolvable source path. -/
theorem c1_copy_semantics (ex : String → Bool) (s : PackSettings)
    (icons : List IconDefinition) :
    ((export_icon_pack ex s icons).1.filter FsOp.isCopy)
      = icons.flatMap (c1_spec_copies s ex) := by
  rcases icons with _ | ⟨i, rest⟩
  · rfl
  · simp only [export_icon_pack, List.isEmpty_cons, Bool.false_eq_true,
      if_false]
    rw [List.filter_append, List.filter_append, prepare_no_copy,
      descriptors_no_copy,
      List.filter_eq_self.2 (fun op hop => by
        obtain ⟨j, -, hop⟩ := List.mem_flatMap.1 hop
        exact iconExportOps_all_copy ex _ j op hop)]
    rw [List.append_nil, List.nil_append]
    exact flatMap_congr_left _ (fun j _ => iconExportOps_eq_spec ex s j)

/-! ## C10: installed-theme listing — resolved-path uniqueness and
per-root name order -/

/-- Totality of the code-point string order. -/
theorem charListLe_total : ∀ a b : List Char,
    charListLe a b = true ∨ charListLe b a = true
  | [], _ => Or.inl rfl
  | _ :: _, [] => Or.inr rfl
  | a :: as, b :: bs => by
    rcases Nat.lt_trichotomy a.toNat b.toNat with h | h | h
    · left
      rw [charListLe, if_pos h]
    · rcases charListLe_total as bs with ih | ih
      · left
        rw [charListLe, if_neg (by omega), if_neg (by omega)]
        exact ih
      · right
        rw [charListLe, if_neg (by omega), if_neg (by omega)]
        exact ih
    · right
      rw [charListLe, if_pos h]

/-- Transitivity of the code-point string order. -/
theorem charListLe_trans : ∀ a b c : List Char,
    charListLe a b = true → charListLe b c = true → charListLe a c = true
  | [], _, _, _, _ => rfl
  | _ :: _, [], _, hab, _ => by rw [charListLe] at hab; exact absurd hab (by simp)
  | _ :: _, _ :: _, [], _, hbc => by
    rw [charListLe] at hbc; exact absurd hbc (by simp)
  | a :: as, b :: bs, c :: cs, hab, hbc => by
    rw [charListLe] at hab hbc ⊢
    by_cases h1 : a.toNat < b.toNat
    · by_cases h2 : b.toNat < c.toNat
      · rw [if_pos (by omega)]
      · by_cases h3 : c.toNat < b.toNat
        · rw [if_neg h2, if_pos h3] at hbc
          exact absurd hbc (by simp)
        · rw [if_pos (by omega)]
    · by_cases h1' : b.toNat < a.toNat
      · rw [if_neg h1, if_pos h1'] at hab
        exact absurd hab (by simp)
      · rw [if_neg h1, if_neg h1'] at hab
        by_cases h2 : b.toNat < c.toNat
        · rw [if_pos (by omega)]
        · by_cases h3 : c.toNat < b.toNat
          · rw [if_neg h2, if_pos h3] at hbc
            exact absurd hbc (by simp)
          · rw [if_neg h2, if_neg h3] at hbc
            rw [if_neg (by omega), if_neg (by omega)]
            exact charListLe_trans as bs cs hab hbc

instance : IsTotal String (fun a b => strLe a b = true) :=
  ⟨fun a b => charListLe_total a.data b.data⟩

instance : IsTrans String (fun a b => strLe a b = true) :=
  ⟨fun a b c => charListLe_trans a.data b.data c.data⟩

/-- The per-root loop only appends to the candidate list: its result is
the incoming list followed by the block the loop itself produces, which
depends only on the incoming seen set. -/
theorem themeStep_fold_shift (fs : DirFS) (base : String) :
    ∀ (names : List String) (c₀ : List ThemeCandidate) (s₀ : List String),
      names.foldl (themeStep fs base) (c₀, s₀)
        = (c₀ ++ (names.foldl (themeStep fs base) ([], s₀)).1,
           (names.foldl (themeStep fs base) ([], s₀)).2)
  | [], c₀, s₀ => by simp
  | n :: ns, c₀, s₀ => by
    simp only [List.foldl_cons]
    by_cases hdir : fs.fsIsDir (base ++ "/" ++ n)
        ∧ fs.fsExists (base ++ "/" ++ n ++ "/index.theme")
    · by_cases hseen : fs.resolve (base ++ "/" ++ n) ∈ s₀
      · rw [show themeStep fs base (c₀, s₀) n = (c₀, s₀) by
            simp [themeStep, hdir, hseen],
          show themeStep fs base ([], s₀) n = ([], s₀) by
            simp [themeStep, hdir, hseen]]
        exact themeStep_fold_shift fs base ns c₀ s₀
      · have e1 := themeStep_fold_shift fs base ns
          (c₀ ++ [⟨n, base ++ "/" ++ n⟩])
          (s₀ ++ [fs.resolve (base ++ "/" ++ n)])
        have e2 := themeStep_fold_shift fs base ns
          ([⟨n, base ++ "/" ++ n⟩])
          (s₀ ++ [fs.resolve (base ++ "/" ++ n)])
        rw [show themeStep fs base (c₀, s₀) n
            = (c₀ ++ [⟨n, base ++ "/" ++ n⟩],
               s₀ ++ [fs.resolve (base ++ "/" ++ n)]) by
            simp [themeStep, hdir, hseen],
          show themeStep fs base ([], s₀) n
            = ([⟨n, base ++ "/" ++ n⟩],
               s₀ ++ [fs.resolve (base ++ "/" ++ n)]) by
            simp [themeStep, hdir, hseen]]
        rw [e1, e2]
        simp
    · rw [show themeStep fs base (c₀, s₀) n = (c₀, s₀) by
          simp [themeStep, hdir],
        show themeStep fs base ([], s₀) n = ([], s₀) by
          simp [themeStep, hdir]]
      exact themeStep_fold_shift fs base ns c₀ s₀

/-- The listing invariant: every collected candidate's resolved path is
in the seen set, and the collected resolved paths are pairwise distinct.
Preserved by the per-root loop. -/
theorem themeStep_fold_inv (fs : DirFS) (base : String) :
    ∀ (names : List String) (acc : List ThemeCandidate × List String),
      (∀ c ∈ acc.1, fs.resolve c.path ∈ acc.2) →
      (acc.1.map (fun c => fs.resolve c.path)).Nodup →
      (∀ c ∈ (names.foldl (themeStep fs base) acc).1,
          fs.resolve c.path ∈ (names.foldl (themeStep fs base) acc).2)
        ∧ ((names.foldl (themeStep fs base) acc).1.map
            (fun c => fs.resolve c.path)).Nodup
  | [], acc, hmem, hnd => ⟨hmem, hnd⟩
  | n :: ns, acc, hmem, hnd => by
    simp only [List.foldl_cons]
    by_cases hdir : fs.fsIsDir (base ++ "/" ++ n)
        ∧ fs.fsExists (base ++ "/" ++ n ++ "/index.theme")
    · by_cases hseen : fs.resolve (base ++ "/" ++ n) ∈ acc.2
      · rw [show themeStep fs base acc n = acc by
            simp [themeStep, hdir, hseen]]
        exact themeStep_fold_inv fs base ns acc hmem hnd
      · rw [show themeStep fs base acc n
            = (acc.1 ++ [⟨n, base ++ "/" ++ n⟩],
               acc.2 ++ [fs.resolve (base ++ "/" ++ n)]) by
            simp [themeStep, hdir, hseen]]
        refine themeStep_fold_inv fs base ns _ ?_ ?_
        · intro c hc
          rcases List.mem_append.1 hc with hc | hc
          · exact List.mem_append_left _ (hmem c hc)
          · rcases List.mem_singleton.1 hc with rfl
            simp
        · rw [List.map_append, List.map_singleton]
          refine List.Nodup.append hnd (List.nodup_singleton _) ?_
          intro x hx hx'
          rcases List.mem_singleton.1 hx' with rfl
          obtain ⟨c, hc, hcx⟩ := List.mem_map.1 hx
          exact hseen (hcx ▸ hmem c hc)
    · rw [show themeStep fs base acc n = acc by simp [themeStep, hdir]]
      exact themeStep_fold_inv fs base ns acc hmem hnd

/-- The names of the candidates a per-root walk adds form a subsequence
of the walked child names, in walk order. -/
theorem themeStep_fold_names (fs : DirFS) (base : String) :
    ∀ (names : List String) (acc : List ThemeCandidate × List String),
      ∃ t, ((names.foldl (themeStep fs base) acc).1).map (fun c => c.name)
          = acc.1.map (fun c => c.name) ++ t ∧ t.Sublist names
  | [], acc => ⟨[], by simp⟩
  | n :: ns, acc => by
    simp only [List.foldl_cons]
    by_cases hdir : fs.fsIsDir (base ++ "/" ++ n)
        ∧ fs.fsExists (base ++ "/" ++ n ++ "/index.theme")
    · by_cases hseen : fs.resolve (base ++ "/" ++ n) ∈ acc.2
      · obtain ⟨t, ht, hs⟩ := themeStep_fold_names fs base ns acc
        refine ⟨t, ?_, hs.cons n⟩
        rw [show themeStep fs base acc n = acc by simp [themeStep, hdir, hseen]]
        exact ht
      · obtain ⟨t, ht, hs⟩ := themeStep_fold_names fs base ns
          (acc.1 ++ [⟨n, base ++ "/" ++ n⟩],
           acc.2 ++ [fs.resolve (base ++ "/" ++ n)])
        refine ⟨n :: t, ?_, hs.cons₂ n⟩
        rw [show themeStep fs base acc n
            = (acc.1 ++ [⟨n, base ++ "/" ++ n⟩],
               acc.2 ++ [fs.resolve (base ++ "/" ++ n)]) by
          simp [themeStep, hdir, hseen]]
        rw [ht]
        simp
    · obtain ⟨t, ht, hs⟩ := themeStep_fold_names fs base ns acc
      refine ⟨t, ?_, hs.cons n⟩
      rw [show themeStep fs base acc n = acc by simp [themeStep, hdir]]
      exact ht

/-- The candidates found under a single search root are sorted by
directory name. -/
theorem processRoot_names_sorted (fs : DirFS) (base : String)
    (seen : List String) :
    ((processRoot fs base seen).1.map (fun c => c.name)).Sorted
      (fun a b => strLe a b = true) := by
  rw [processRoot]
  by_cases h : fs.fsExists base ∧ fs.fsIsDir base
  · rw [if_pos h]
    obtain ⟨t, ht, hs⟩ := themeStep_fold_names fs base
      (List.insertionSort (fun a b => strLe a b = true) (fs.children base))
      ([], seen)
    rw [ht]
    simp only [List.map_nil, List.nil_append]
    exact List.Pairwise.sublist hs (List.sorted_insertionSort _ _)
  · rw [if_neg h]
    simp

/-- The listing invariant holds across the whole root-by-root fold. -/
theorem list_fold_inv (fs : DirFS) :
    ∀ (roots : List String) (acc : List ThemeCandidate × List String),
      (∀ c ∈ acc.1, fs.resolve c.path ∈ acc.2) →
      (acc.1.map (fun c => fs.resolve c.path)).Nodup →
      ((roots.foldl (fun acc base =>
          ((acc.1 ++ (processRoot fs base acc.2).1,
            (processRoot fs base acc.2).2)
            : List ThemeCandidate × List String)) acc).1.map
          (fun c => fs.resolve c.path)).Nodup
  | [], _, _, hnd => hnd
  | r :: rs, acc, h1, h2 => by
    simp only [List.foldl_cons]
    by_cases h : fs.fsExists r ∧ fs.fsIsDir r
    · have hp : processRoot fs r acc.2
          = (List.insertionSort (fun a b => strLe a b = true)
              (fs.children r)).foldl (themeStep fs r) ([], acc.2) := by
        rw [processRoot, if_pos h]
      rw [hp, ← themeStep_fold_shift fs r _ acc.1 acc.2]
      have hinv := themeStep_fold_inv fs r
        (List.insertionSort (fun a b => strLe a b = true) (fs.children r))
        (acc.1, acc.2) h1 h2
      exact list_fold_inv fs rs _ hinv.1 hinv.2
    · have hp : processRoot fs r acc.2 = ([], acc.2) := by
        rw [processRoot, if_neg h]
      rw [hp]
      simp only [List.append_nil]
      exact list_fold_inv fs rs (acc.1, acc.2) h1 h2

/-- Claim C10: for every filesystem view and extra search paths, the
installed-theme listing never returns two candidates with the same
resolved absolute path (the seen-set dedup makes the first occurrence
across the root-then-alphabetical traversal win), and within each search
root the candidates appear sorted by directory name. -/
theorem c10_theme_listing (fs : DirFS) (home : String) (extra : List String) :
    ((list_installed_themes fs home extra).map
        (fun c => fs.resolve c.path)).Nodup
      ∧ ∀ (base : String) (seen : List String),
          ((processRoot fs base seen).1.map (fun c => c.name)).Sorted
            (fun a b => strLe a b = true) := by
  constructor
  · rw [list_installed_themes]
    exact list_fold_inv fs (extra ++ SYSTEM_ICON_DIRS home) ([], [])
      (by simp) (by simp)
  · exact fun base seen => processRoot_names_sorted fs base seen

/-! ## C8: weighted selection when seeding from an existing pack -/

/-- The weight claim C8 ascribes to a candidate file, its third clause
read on the file's *category* (parent-directory name): `+1` when not a
vector format, `+2` when not located under a `scalable` directory, `+1`
when the category is not `apps` or `mimetypes`. -/
def c8_claim_weight (directory : String) (path : String) : Nat :=
  (if isVectorSuffix (strLower (pathSuffix path)) then 0 else 1)
    + (if ("scalable") ∈ (pathParts path).map strLower then 0 else 2)
    + (match sourceCategory directory path with
       | some c => if c = "apps" ∨ c = "mimetypes" then 0 else 1
       | none => 1)

/-- The earliest element of lowest weight (lowest cumulative weight wins,
ties broken by first-seen). -/
def firstMinBy {α : Type} (w : α → Nat) : List α → Option α
  | [] => none
  | a :: rest =>
    match firstMinBy w rest with
    | none => some a
    | some b => if w b < w a then some b else some a

/-- Counterexample to claim C8 as stated: among two files sharing the
stem `foo`, the code selects the raster under `d/apps/deep/` (code
weight 3, because `apps` appears as a path component), although its
*category* is `deep`, giving it claim weight 4 — strictly above the
vector candidate's claim weight 3.  So the selected file is not the one
of lowest claim weight. -/
theorem c8_weight_counterexample :
    collect_icon_sources ("d") [("d/apps/deep/foo.png"), ("d/misc/foo.svg")]
        (fun _ => true)
      = [(("foo"), ("d/apps/deep/foo.png"), some ("deep"))]
    ∧ pathStem ("d/misc/foo.svg") = "foo"
    ∧ c8_claim_weight ("d") ("d/misc/foo.svg")
        < c8_claim_weight ("d") ("d/apps/deep/foo.png") := by
  refine ⟨rfl, rfl, by decide⟩

/-- Lookup through a `dict` update. -/
theorem alLookup_alUpdate {κ β : Type} [DecidableEq κ] (k k' : κ) (v : β) :
    ∀ d : List (κ × β),
      alLookup k (alUpdate d k' v) = if k = k' then some v else alLookup k d
  | [] => by
    by_cases h : k = k'
    · subst h
      simp [alLookup, alUpdate]
    · rw [if_neg h]
      simp only [alLookup, alUpdate, List.find?_nil, Option.map_none']
      rw [List.find?_cons_of_neg [] (by
        simp only [decide_eq_true_eq]
        exact Ne.symm h), List.find?_nil]
      rfl
  | (k₀, v₀) :: d => by
    by_cases h0 : k₀ = k'
    · subst h0
      rw [show alUpdate ((k₀, v₀) :: d) k₀ v = (k₀, v) :: d from by
        simp [alUpdate]]
      by_cases h : k = k₀
      · subst h
        simp [alLookup]
      · rw [if_neg h]
        simp only [alLookup]
        rw [List.find?_cons_of_neg d (by
            simp only [decide_eq_true_eq]
            exact Ne.symm h),
          List.find?_cons_of_neg d (by
            simp only [decide_eq_true_eq]
            exact Ne.symm h)]
    · rw [show alUpdate ((k₀, v₀) :: d) k' v = (k₀, v₀) :: alUpdate d k' v
        from by simp [alUpdate, h0]]
      by_cases h : k = k₀
      · subst h
        rw [if_neg h0]
        simp [alLookup]
      · have ih := alLookup_alUpdate k k' v d
        simp only [alLookup] at ih ⊢
        rw [List.find?_cons_of_neg (alUpdate d k' v) (by
            simp only [decide_eq_true_eq]
            exact Ne.symm h),
          List.find?_cons_of_neg d (by
            simp only [decide_eq_true_eq]
            exact Ne.symm h)]
        exact ih

/-- The winners-dictionary entry recorded for a candidate file. -/
def mkEntry (directory path : String) : Nat × String × Option String :=
  (sourceWeight path, path, sourceCategory directory path)

theorem mkEntry_fst (directory path : String) :
    (mkEntry directory path).1 = sourceWeight path := rfl

/-- How the stored best for a stem merges with the best of a scanned
block. -/
def pickBetter (directory : String)
    (e : Option (Nat × String × Option String)) (q : Option String) :
    Option (Nat × String × Option String) :=
  match e, q with
  | none, none => none
  | some e, none => some e
  | none, some p => some (mkEntry directory p)
  | some e, some p =>
    if sourceWeight p < e.1 then some (mkEntry directory p) else some e

/-- The dictionary after scanning a candidate block stores, per stem, the
earliest candidate of strictly lowest code weight, merged with the
incoming entry. -/
theorem winners_fold_lookup (directory : String) :
    ∀ (cs : List String) (w : List (String × (Nat × String × Option String)))
      (name : String),
      alLookup name (cs.foldl (updateWinners directory) w)
        = pickBetter directory (alLookup name w)
            (firstMinBy sourceWeight (cs.filter (fun p => pathStem p = name)))
  | [], w, name => by
    simp only [List.foldl_nil, List.filter_nil]
    rcases alLookup name w with _ | e <;> rfl
  | c :: cs, w, name => by
    simp only [List.foldl_cons]
    rw [winners_fold_lookup directory cs (updateWinners directory w c) name]
    by_cases hst : pathStem c = name
    · rw [List.filter_cons_of_pos (by simpa using hst)]
      rcases he : alLookup name w with _ | e
      · have hstep : alLookup name (updateWinners directory w c)
            = some (mkEntry directory c) := by
          simp only [updateWinners, hst, he]
          rw [show (sourceWeight c, c, sourceCategory directory c)
              = mkEntry directory c from rfl]
          rw [alLookup_alUpdate, if_pos rfl]
        rw [hstep]
        rcases hq : firstMinBy sourceWeight
            (cs.filter (fun p => pathStem p = name)) with _ | b
        · simp only [pickBetter, firstMinBy, hq]
        · simp only [firstMinBy, hq]
          rw [apply_ite (pickBetter directory none)]
          simp only [pickBetter, mkEntry_fst]
      · by_cases hle : e.1 ≤ sourceWeight c
        · have hstep : alLookup name (updateWinners directory w c) = some e := by
            simp only [updateWinners, hst, he, if_pos hle]
          rw [hstep]
          rcases hq : firstMinBy sourceWeight
              (cs.filter (fun p => pathStem p = name)) with _ | b
          · simp only [pickBetter, firstMinBy, hq]
            rw [if_neg (by omega)]
          · simp only [firstMinBy, hq]
            rw [apply_ite (pickBetter directory (some e))]
            simp only [pickBetter, mkEntry_fst]
            split_ifs <;> first | rfl | omega
        · have hstep : alLookup name (updateWinners directory w c)
              = some (mkEntry directory c) := by
            simp only [updateWinners, hst, he, if_neg hle]
            rw [show (sourceWeight c, c, sourceCategory directory c)
                = mkEntry directory c from rfl]
            rw [alLookup_alUpdate, if_pos rfl]
          rw [hstep]
          rcases hq : firstMinBy sourceWeight
              (cs.filter (fun p => pathStem p = name)) with _ | b
          · simp only [pickBetter, firstMinBy, hq, mkEntry_fst]
            rw [if_pos (by omega)]
          · simp only [firstMinBy, hq]
            rw [apply_ite (pickBetter directory (some e))]
            simp only [pickBetter, mkEntry_fst]
            split_ifs <;> first | rfl | omega
    · rw [List.filter_cons_of_neg (by simpa using hst)]
      have hstep : alLookup name (updateWinners directory w c)
          = alLookup name w := by
        simp only [updateWinners]
        rcases hpc : alLookup (pathStem c) w with _ | e
        · simp only []
          rw [alLookup_alUpdate, if_neg (fun h => hst h.symm)]
        · simp only []
          by_cases hle : e.1 ≤ sourceWeight c
          · rw [if_pos hle]
          · rw [if_neg hle, alLookup_alUpdate, if_neg (fun h => hst h.symm)]
      rw [hstep]

/-- Updating a `dict` keeps its keys pairwise distinct. -/
theorem alUpdate_keys_nodup {κ β : Type} [DecidableEq κ] (v : β)
    (d : List (κ × β)) (k : κ) (h : (d.map Prod.fst).Nodup) :
    ((alUpdate d k v).map Prod.fst).Nodup := by
  rw [alUpdate_keys]
  by_cases hm : k ∈ d.map Prod.fst
  · rw [if_pos hm]
    exact h
  · rw [if_neg hm]
    refine h.append (List.nodup_singleton k) ?_
    intro x hx hx'
    rcases List.mem_singleton.1 hx' with rfl
    exact hm hx

/-- One scan step keeps the winners dictionary's keys distinct. -/
theorem updateWinners_keys_nodup (directory : String)
    (w : List (String × (Nat × String × Option String))) (c : String)
    (h : (w.map Prod.fst).Nodup) :
    ((updateWinners directory w c).map Prod.fst).Nodup := by
  simp only [updateWinners]
  rcases hpc : alLookup (pathStem c) w with _ | e
  · simp only []
    exact alUpdate_keys_nodup _ w _ h
  · simp only []
    by_cases hle : e.1 ≤ sourceWeight c
    · rw [if_pos hle]
      exact h
    · rw [if_neg hle]
      exact alUpdate_keys_nodup _ w _ h

/-- The winners dictionary's keys are pairwise distinct. -/
theorem collectWinners_keys_nodup (directory : String) (files : List String)
    (isF : String → Bool) :
    ((collectWinners directory files isF).map Prod.fst).Nodup := by
  rw [collectWinners]
  suffices h : ∀ (cs : List String)
      (w : List (String × (Nat × String × Option String))),
      (w.map Prod.fst).Nodup →
      ((cs.foldl (updateWinners directory) w).map Prod.fst).Nodup by
    exact h _ [] (by simp)
  intro cs
  induction cs with
  | nil => exact fun w h => h
  | cons c cs ih =>
    intro w h
    exact ih _ (updateWinners_keys_nodup directory w c h)

/-- In a `dict` with distinct keys, membership is lookup. -/
theorem mem_iff_alLookup {κ β : Type} [DecidableEq κ] :
    ∀ (d : List (κ × β)) (k : κ) (v : β), (d.map Prod.fst).Nodup →
      ((k, v) ∈ d ↔ alLookup k d = some v)
  | [], k, v, _ => by simp [alLookup]
  | (k₀, v₀) :: d, k, v, h => by
    rw [List.map_cons, List.nodup_cons] at h
    by_cases hk : k = k₀
    · subst hk
      simp only [alLookup]
      rw [List.find?_cons_of_pos d (by simp)]
      simp only [Option.map_some', Option.some.injEq, List.mem_cons]
      constructor
      · rintro (h' | h')
        · exact congrArg Prod.snd h'.symm
        · exact absurd (List.mem_map.2 ⟨(k, v), h', rfl⟩) h.1
      · intro h'
        exact Or.inl (by rw [h'])
    · simp only [alLookup]
      rw [List.find?_cons_of_neg d (by
        simp only [decide_eq_true_eq]
        exact Ne.symm hk)]
      rw [List.mem_cons]
      have ih := mem_iff_alLookup d k v h.2
      rw [alLookup] at ih
      constructor
      · rintro (h' | h')
        · exact absurd (congrArg Prod.fst h') hk
        · exact ih.1 h'
      · intro h'
        exact Or.inr (ih.2 h')

/-- Claim C8 as amended: in the seed-from-existing-pack entry point, an
entry `(name, path, category)` is produced exactly when `path` is, among
the allowed candidate files sharing the stem `name` in sorted traversal
order, the first one of lowest cumulative code weight — where the weight
is `+1` if not a vector format, `+2` if no path component is `scalable`,
and `+1` if no path component is `apps` or `mimetypes` (the code tests
path components, not the recorded category) — ties broken in favor of the
first-seen file, with `category` the selected file's parent-directory
name (none when the parent is the scanned directory). -/
theorem c8_selection_amended (d : String) (files : List String)
    (isF : String → Bool) (name p : String) (c : Option String) :
    (name, p, c) ∈ collect_icon_sources d files isF
      ↔ (firstMinBy sourceWeight
            ((sourceCandidates files isF).filter (fun q => pathStem q = name))
            = some p
          ∧ c = sourceCategory d p) := by
  have hnd := collectWinners_keys_nodup d files isF
  have hchar : alLookup name (collectWinners d files isF)
      = pickBetter d none
          (firstMinBy sourceWeight
            ((sourceCandidates files isF).filter (fun q => pathStem q = name))) :=
    winners_fold_lookup d (sourceCandidates files isF) [] name
  rw [collect_icon_sources, List.mem_map]
  constructor
  · rintro ⟨kv, hkv, hproj⟩
    rw [List.mem_insertionSort] at hkv
    have hlook := (mem_iff_alLookup (collectWinners d files isF)
      kv.1 kv.2 hnd).1 hkv
    have h1 : kv.1 = name := congrArg Prod.fst hproj
    have h2 : kv.2.2.1 = p := congrArg (fun x => x.2.1) hproj
    have h3 : kv.2.2.2 = c := congrArg (fun x => x.2.2) hproj
    rw [h1, hchar] at hlook
    rcases hq : firstMinBy sourceWeight
        ((sourceCandidates files isF).filter (fun q => pathStem q = name))
      with _ | b
    · rw [hq] at hlook
      exact absurd hlook (by simp [pickBetter])
    · rw [hq] at hlook
      simp only [pickBetter, Option.some.injEq] at hlook
      have hb2 : b = p := by
        rw [← h2, ← hlook]
        rfl
      subst hb2
      refine ⟨rfl, ?_⟩
      rw [← h3, ← hlook]
      rfl
  · rintro ⟨hfm, hc⟩
    have hlook : alLookup name (collectWinners d files isF)
        = some (mkEntry d p) := by
      rw [hchar, hfm]
      rfl
    have hmem := (mem_iff_alLookup (collectWinners d files isF)
      name (mkEntry d p) hnd).2 hlook
    refine ⟨(name, mkEntry d p), ?_, ?_⟩
    · rw [List.mem_insertionSort]
      exact hmem
    · show (name, (mkEntry d p).2.1, (mkEntry d p).2.2) = (name, p, c)
      rw [hc]
      rfl

/-! ## C4: the two descriptor layers written by assembly -/

/-- The source path a descriptor entry records, if any. -/
def entrySource (e : YVal) : Option String :=
  match yget e ("source_path") with
  | some (.str sp) => some sp
  | _ => none

/-- The source paths of a descriptor's icon list, in order. -/
def docIconSources (doc : YVal) : Option (List (Option String)) :=
  match yget doc ("icons") with
  | some (.list entries) => some (entries.map entrySource)
  | _ => none

/-- The descriptor lists the given pack settings under the expected keys. -/
def docListsSettings (doc : YVal) (s : PackSettings) : Prop :=
  yget doc ("name") = some (.str s.name)
    ∧ yget doc ("author") = some (.str s.author)
    ∧ yget doc ("description") = some (.str s.description)
    ∧ yget doc ("inherits") = some (.str s.inherits)
    ∧ yget doc ("base_sizes") = some (.list (s.base_sizes.map .int))
    ∧ yget doc ("output_dir") = some (.str s.output_dir)
    ∧ yget doc ("targets") = some (.list (s.targets.map .str))

/-- A descriptor entry records exactly the icon's source path. -/
theorem entrySource_descriptorIconEntry (b : Bool) (i : IconDefinition) :
    entrySource (descriptorIconEntry b i) = i.source_path := by
  rcases hc : i.category with _ | c
  · rcases hp : i.source_path with _ | p <;>
      simp [entrySource, descriptorIconEntry, yget, List.find?, hc, hp]
  · by_cases hic : b ∧ c ≠ "" <;>
      rcases hp : i.source_path with _ | p <;>
        simp [entrySource, descriptorIconEntry, yget, List.find?, hc, hp, hic]

/-- The descriptor's icon list records exactly the given icons' source
paths, in order. -/
theorem docIconSources_descriptor (s : PackSettings)
    (icons : List IconDefinition) (b : Bool) :
    docIconSources (save_project_descriptor s icons b)
      = some (icons.map (fun i => i.source_path)) := by
  rw [show docIconSources (save_project_descriptor s icons b)
      = some ((icons.map (descriptorIconEntry b)).map entrySource) from rfl]
  rw [List.map_map]
  exact congrArg some
    (List.map_congr_left (fun i _ => entrySource_descriptorIconEntry b i))

/-- The descriptor lists the settings. -/
theorem docListsSettings_descriptor (s : PackSettings)
    (icons : List IconDefinition) (b : Bool) :
    docListsSettings (save_project_descriptor s icons b) s :=
  ⟨rfl, rfl, rfl, rfl, rfl, rfl, rfl⟩

/-- Claim C4: after assembly, a descriptor is written at the pack root
listing the pack settings together with the original icon list (source
paths as originally given), and inside each resolved target's root a
descriptor listing the same settings with each icon's source path
rewritten to the copied file in that target's `scalable/apps` directory;
an icon with no copied asset has no source path in the per-target
descriptor. -/
theorem c4_descriptor_layers (ex : String → Bool) (s : PackSettings)
    (icons : List IconDefinition) (hne : icons ≠ []) :
    (∃ doc0,
        FsOp.writeDoc ((s.output_dir ++ "/" ++ themeSlug s) ++ "/stromschlag.yaml")
            doc0 ∈ (export_icon_pack ex s icons).1
          ∧ docListsSettings doc0 s
          ∧ docIconSources doc0 = some (icons.map (fun i => i.source_path)))
      ∧ ∀ d ∈ resolvedTargets s, ∃ doc,
          FsOp.writeDoc (c1_target_root s d ++ "/stromschlag.yaml") doc
              ∈ (export_icon_pack ex s icons).1
            ∧ docListsSettings doc s
            ∧ docIconSources doc
                = some (icons.map (fun i =>
                    if hasSourceAsset ex i then
                      some (scalableDirOf s d ++ "/" ++ icon_filename i.name)
                    else none)) := by
  rcases icons with _ | ⟨i, rest⟩
  · exact absurd rfl hne
  · simp only [export_icon_pack, List.isEmpty_cons, Bool.false_eq_true,
      if_false]
    constructor
    · refine ⟨save_project_descriptor s
        ((i :: rest).map (fun j =>
          ({ name := j.name, source_path := j.source_path,
             category := j.category } : IconDefinition))) false, ?_, ?_, ?_⟩
      · refine List.mem_append_right _ ?_
        simp only [write_project_descriptors]
        refine List.mem_append_left _ ?_
        exact List.mem_cons_of_mem _ (List.mem_cons_self _ _)
      · exact docListsSettings_descriptor s _ false
      · rw [docIconSources_descriptor, List.map_map]
        rfl
    · intro d hd
      refine ⟨save_project_descriptor s
        ((i :: rest).map (fun j =>
          ({ name := j.name,
             source_path :=
               if hasSourceAsset ex j then
                 some ((prepareTarget (s.output_dir ++ "/" ++ themeSlug s) s
                     (themeComment s) d).2.scalable_dir ++ "/"
                   ++ icon_filename j.name)
               else none,
             category := j.category } : IconDefinition))) false, ?_, ?_, ?_⟩
      · refine List.mem_append_right _ ?_
        simp only [write_project_descriptors]
        refine List.mem_append_right _ ?_
        refine List.mem_flatMap.2
          ⟨(prepareTarget (s.output_dir ++ "/" ++ themeSlug s) s
            (themeComment s) d).2, ?_, ?_⟩
        · simp only [prepare_theme_targets]
          exact List.mem_map.2 ⟨d, hd, rfl⟩
        · exact List.mem_cons_of_mem _ (List.mem_cons_self _ _)
      · exact docListsSettings_descriptor s _ false
      · rw [docIconSources_descriptor, List.map_map]
        rfl

/-- Witness for C4 at a concrete one-icon project. -/
theorem c4_descriptor_layers_witness :
    (∃ doc0,
        FsOp.writeDoc ((("build" : String) ++ "/" ++ themeSlug
              { name := "My Pack", author := "A", output_dir := "build" })
            ++ "/stromschlag.yaml") doc0
          ∈ (export_icon_pack (fun _ => true)
              { name := "My Pack", author := "A", output_dir := "build" }
              [{ name := "folder", source_path := some "/a/folder.png" }]).1
          ∧ docListsSettings doc0
              { name := "My Pack", author := "A", output_dir := "build" }
          ∧ docIconSources doc0 = some [some ("/a/folder.png")])
      ∧ ∀ d ∈ resolvedTargets
            { name := "My Pack", author := "A", output_dir := "build" },
          ∃ doc,
            FsOp.writeDoc (c1_target_root
                { name := "My Pack", author := "A", output_dir := "build" } d
                ++ "/stromschlag.yaml") doc
              ∈ (export_icon_pack (fun _ => true)
                  { name := "My Pack", author := "A", output_dir := "build" }
                  [{ name := "folder", source_path := some "/a/folder.png" }]).1
            ∧ docListsSettings doc
                { name := "My Pack", author := "A", output_dir := "build" }
            ∧ docIconSources doc
                = some [some (scalableDirOf
                    { name := "My Pack", author := "A", output_dir := "build" } d
                    ++ "/" ++ icon_filename ("folder"))] :=
  c4_descriptor_layers (fun _ => true)
    { name := "My Pack", author := "A", output_dir := "build" }
    [{ name := "folder", source_path := some "/a/folder.png" }]
    (by simp)

end Stromschlag
